import Mathlib

/-!
# Verification of `ECGXMLReader.py`

A shallow embedding of the single-file ECG XML reader. The Python pipeline is

  file bytes → `xmltodict` tree → waveform node(s) → per-lead base64 string
  → `base64.b64decode` → `array.array('h', ·)` → integer sample list,

wrapped in a constructor whose broad `except` clause degrades the whole
instance (`Waveforms = None`, `LeadVoltages = None`) on any raised exception.

Modelling choices:
* exceptions are `Except String`; the constructor's `try/except` is the
  top-level `match` in `initReader`;
* `xmltodict`'s "single child becomes a dict, several children become a list"
  behaviour is captured by `WaveformField` (normalised by `__init__`) and
  `LeadDataField` (NOT normalised by the code: iterating a dict yields its
  keys, and indexing a key string with `['WaveFormData']` raises `TypeError`);
* numpy arrays are `List ℚ`: decoded samples are int16 values, and the
  augmented-lead arithmetic multiplies by the scalar `0.5`, which is exact in
  IEEE double for these magnitudes, so rational arithmetic is value-faithful;
* Python dicts are insertion-ordered association lists with in-place
  overwrite (`dictInsert`);
* `print` diagnostics are side effects with no data content and are dropped.
-/

namespace ECGReader

deriving instance DecidableEq for Except

/-! ## base64 (`base64.b64decode` / the standard alphabet) -/

/-- The standard base64 alphabet, index 0–63. -/
def b64Alphabet : List Char :=
  ['A','B','C','D','E','F','G','H','I','J','K','L','M','N','O','P',
   'Q','R','S','T','U','V','W','X','Y','Z',
   'a','b','c','d','e','f','g','h','i','j','k','l','m','n','o','p',
   'q','r','s','t','u','v','w','x','y','z',
   '0','1','2','3','4','5','6','7','8','9','+','/']

/-- Character for a 6-bit group. -/
def sextetChar (n : Nat) : Char := b64Alphabet.getD n 'A'

/-- Position of a character in a list, if present. -/
def lookupIdx : List Char → Char → Option Nat
  | [], _ => none
  | a :: rest, c => if a = c then some 0 else (lookupIdx rest c).map (· + 1)

/-- 6-bit value of an alphabet character, `none` for a non-alphabet one. -/
def charSextet (c : Char) : Option Nat := lookupIdx b64Alphabet c

/-- base64 encoding of a byte list (each `< 256`), with `=` padding. -/
def b64encodeBytes : List Nat → List Char
  | a :: b :: c :: rest =>
      sextetChar (a / 4) :: sextetChar (a % 4 * 16 + b / 16) ::
      sextetChar (b % 16 * 4 + c / 64) :: sextetChar (c % 64) ::
      b64encodeBytes rest
  | [a, b] => [sextetChar (a / 4), sextetChar (a % 4 * 16 + b / 16),
               sextetChar (b % 16 * 4), '=']
  | [a] => [sextetChar (a / 4), sextetChar (a % 4 * 16), '=', '=']
  | [] => []

/-- base64 decoding. Faithful to `base64.b64decode` on well-formed input
(4-character chunks, `=` padding only at the end, leftover bits ignored);
malformed input — a non-alphabet character, a length that is not a multiple
of four, or data after padding — is rejected with an error, as
`binascii.Error` is raised for such payloads. -/
def b64decodeChars : List Char → Except String (List Nat)
  | [] => .ok []
  | c1 :: c2 :: c3 :: c4 :: rest =>
    match charSextet c1, charSextet c2 with
    | some s1, some s2 =>
      if c3 = '=' then
        if c4 = '=' ∧ rest = [] then .ok [s1 * 4 + s2 / 16]
        else .error "binascii.Error: invalid base64"
      else
        match charSextet c3 with
        | some s3 =>
          if c4 = '=' then
            if rest = [] then .ok [s1 * 4 + s2 / 16, s2 % 16 * 16 + s3 / 4]
            else .error "binascii.Error: invalid base64"
          else
            match charSextet c4 with
            | some s4 =>
              (b64decodeChars rest).map
                (fun t => (s1 * 4 + s2 / 16) :: (s2 % 16 * 16 + s3 / 4) ::
                          (s3 % 4 * 64 + s4) :: t)
            | none => .error "binascii.Error: invalid base64"
        | none => .error "binascii.Error: invalid base64"
    | _, _ => .error "binascii.Error: invalid base64"
  | _ => .error "binascii.Error: invalid padding"

/-- `base64.b64decode` on a Python `str`. -/
def b64decode (s : String) : Except String (List Nat) :=
  b64decodeChars s.toList

/-- base64 encoding as a string (used to build concrete documents). -/
def b64encode (bs : List Nat) : String := String.mk (b64encodeBytes bs)

/-! ## `array.array('h', ·)`: signed 16-bit little-endian reinterpretation -/

/-- Two's-complement reading of a 16-bit unsigned value. -/
def toSigned16 (n : Nat) : Int := if n < 32768 then (n : Int) else (n : Int) - 65536

/-- `array.array('h', bytes)`: consume byte pairs little-endian; a payload of
odd length raises `ValueError`. -/
def bytesToInt16 : List Nat → Except String (List Int)
  | [] => .ok []
  | [_] => .error "ValueError: bytes length not a multiple of 2"
  | lo :: hi :: rest =>
      (bytesToInt16 rest).map (fun t => toSigned16 (lo + 256 * hi) :: t)

/-- Little-endian two-byte encoding of an `Int` reduced mod 2^16. -/
def encodeInt16 (v : Int) : List Nat :=
  [(v % 65536).toNat % 256, (v % 65536).toNat / 256]

/-- Little-endian byte stream of a sample list. -/
def int16Bytes : List Int → List Nat
  | [] => []
  | v :: vs => encodeInt16 v ++ int16Bytes vs

/-- The `WaveFormData` text for a sample list: base64 of its int16-LE bytes. -/
def encodeLead (vs : List Int) : String := b64encode (int16Bytes vs)

/-! ## Document model (the `xmltodict` tree, as far as the reader reads it) -/

/-- One `<LeadData>` entry: `lead['LeadID']` and `lead['WaveFormData']`. -/
structure LeadData where
  LeadID : String
  WaveFormData : String
deriving DecidableEq

/-- The `LeadData` child of a waveform node as `xmltodict` yields it: a single
entry parses as one dict, several entries as a list of dicts. The code never
normalises this field. -/
inductive LeadDataField
  | single : LeadData → LeadDataField
  | list : List LeadData → LeadDataField
deriving DecidableEq

/-- One waveform node; `LeadData = none` models a node without a `LeadData`
key (`'LeadData' not in waveform`). -/
structure Waveform where
  LeadData : Option LeadDataField
deriving DecidableEq

/-- The `Waveform` child of `RestingECG`: absent, a single node, or a list of
nodes. `__init__` normalises this one to a list. -/
inductive WaveformField
  | absent
  | single : Waveform → WaveformField
  | list : List Waveform → WaveformField
deriving DecidableEq

/-- The parsed document, as far as the reader touches it. The four metadata
sub-trees are opaque pass-through values the lead pipeline never reads, so
they are not modelled. -/
structure ECGDocument where
  Waveform : WaveformField
deriving DecidableEq

/-- Outcome of `open(path, 'rb')` + `xmltodict.parse`: `failure` covers a
missing/unreadable file and malformed XML (an exception raised before any
field extraction), `parsed` a successfully parsed tree. -/
inductive ParseOutcome
  | failure
  | parsed : ECGDocument → ParseOutcome

/-! ## The lead-voltage dictionary (a Python dict: insertion-ordered,
key-unique, in-place overwrite) -/

/-- `leads[k] = v`: overwrite in place if the key exists, else append. -/
def dictInsert (m : List (String × List ℚ)) (k : String) (v : List ℚ) :
    List (String × List ℚ) :=
  match m with
  | [] => [(k, v)]
  | (k', v') :: rest => if k' = k then (k, v) :: rest else (k', v') :: dictInsert rest k v

/-- `leads.get(k, None)`. -/
def dictGet (m : List (String × List ℚ)) (k : String) : Option (List ℚ) :=
  match m with
  | [] => none
  | (k', v) :: rest => if k' = k then some v else dictGet rest k

/-- `leads[k]`: raises `KeyError` when absent. -/
def getItem (m : List (String × List ℚ)) (k : String) : Except String (List ℚ) :=
  match dictGet m k with
  | some v => .ok v
  | none => .error ("KeyError: " ++ k)

/-- The dict's keys in insertion order. -/
def dictKeys (m : List (String × List ℚ)) : List String := m.map Prod.fst

/-! ## `makeLeadVoltages` -/

/-- Decode one lead's `WaveFormData`:
`np.array(array.array('h', base64.b64decode(lead['WaveFormData'])))`.
Samples are widened to ℚ so augmented (float) leads live in the same dict. -/
def decodeLead (s : String) : Except String (List ℚ) :=
  match b64decode s with
  | .error e => .error e
  | .ok bytes =>
    match bytesToInt16 bytes with
    | .error e => .error e
    | .ok vals => .ok (vals.map (fun v => (v : ℚ)))

/-- The loop body for one lead entry: decode, then
`leads[lead['LeadID']] = lead_vals`. A decode exception propagates. -/
def processLead (leads : List (String × List ℚ)) (l : LeadData) :
    Except String (List (String × List ℚ)) :=
  match decodeLead l.WaveFormData with
  | .error e => .error e
  | .ok vals => .ok (dictInsert leads l.LeadID vals)

/-- `for lead in waveform['LeadData']` over a list of entries, threading
`(num_leads, leads)`. `num_leads += 1` precedes the decode in the source, but
on a raised exception the whole state is discarded, so incrementing after a
successful decode is observationally identical. -/
def processLeads : Nat × List (String × List ℚ) → List LeadData →
    Except String (Nat × List (String × List ℚ))
  | st, [] => .ok st
  | (n, leads), l :: rest =>
    match processLead leads l with
    | .error e => .error e
    | .ok leads' => processLeads (n + 1, leads') rest

/-- One iteration of the outer loop. A missing `LeadData` key is skipped
(with a printed warning). A `LeadData` that parsed as a single dict makes
`for lead in waveform['LeadData']` iterate over its key strings, and
`lead['WaveFormData']` on a string raises `TypeError`. -/
def processWaveform (st : Nat × List (String × List ℚ)) (w : Waveform) :
    Except String (Nat × List (String × List ℚ)) :=
  match w.LeadData with
  | none => .ok st
  | some (.single _) => .error "TypeError: string indices must be integers"
  | some (.list ls) => processLeads st ls

/-- `for waveform in self.Waveforms`. -/
def processWaveforms : Nat × List (String × List ℚ) → List Waveform →
    Except String (Nat × List (String × List ℚ))
  | st, [] => .ok st
  | st, w :: rest =>
    match processWaveform st w with
    | .error e => .error e
    | .ok st' => processWaveforms st' rest

/-- Elementwise binary numpy operation on two arrays. Faithful for arrays of
equal length; numpy raises on a genuine shape mismatch. (numpy would also
broadcast a length-1 operand; no lead data exercises that, and no theorem
below touches the unequal-length case.) -/
def vecZip (f : ℚ → ℚ → ℚ) : List ℚ → List ℚ → Except String (List ℚ)
  | [], [] => .ok []
  | x :: xs, y :: ys =>
    match vecZip f xs ys with
    | .error e => .error e
    | .ok t => .ok (f x y :: t)
  | _, _ => .error "ValueError: operands could not be broadcast"

/-- Lines 91–94: the augmented-lead block. `leads['II']` / `leads['I']` are
looked up once each (the source re-reads them on every line, but the
intervening inserts only write keys `III`/`aVR`/`aVL`/`aVF`, never `I` or
`II`, so the re-reads see the same values); `leads['II']` is evaluated first,
matching line 91's argument order when raising `KeyError`. -/
def augmentMap (m : List (String × List ℚ)) : Except String (List (String × List ℚ)) :=
  match getItem m "II" with
  | .error e => .error e
  | .ok vII =>
    match getItem m "I" with
    | .error e => .error e
    | .ok vI =>
      match vecZip (fun x y => x - y) vII vI with
      | .error e => .error e
      | .ok lIII =>
        match vecZip (fun x y => x + y) vI vII with
        | .error e => .error e
        | .ok sumIII =>
          match vecZip (fun x y => x - 1 / 2 * y) vI vII with
          | .error e => .error e
          | .ok lavL =>
            match vecZip (fun x y => x - 1 / 2 * y) vII vI with
            | .error e => .error e
            | .ok lavF =>
              .ok (dictInsert (dictInsert (dictInsert (dictInsert m "III" lIII)
                    "aVR" (sumIII.map (fun x => x * (-(1 : ℚ) / 2))))
                    "aVL" lavL) "aVF" lavF)

/-- `makeLeadVoltages`. `if not self.Waveforms` is Python falsiness: both
`None` and an empty list short-circuit to `{}`. The augmented block runs when
the running entry count `num_leads` equals 8 and the flag is set. -/
def makeLeadVoltages (augmentLeads : Bool) (waveforms : Option (List Waveform)) :
    Except String (List (String × List ℚ)) :=
  match waveforms with
  | none => .ok []
  | some ws =>
    if ws.isEmpty then .ok []
    else
      match processWaveforms (0, []) ws with
      | .error e => .error e
      | .ok (n, leads) =>
        if n = 8 ∧ augmentLeads = true then augmentMap leads else .ok leads

/-! ## `__init__` and the query methods -/

/-- The attributes a constructed instance carries (as far as the lead
pipeline is concerned); `none` models Python `None`. -/
structure Reader where
  Waveforms : Option (List Waveform)
  LeadVoltages : Option (List (String × List ℚ))

/-- `__init__`'s normalisation of the `Waveform` field; `absent` maps to the
explicit `raise KeyError`. -/
def normalizeWaveform : WaveformField → Option (List Waveform)
  | .absent => none
  | .single w => some [w]
  | .list ws => some ws

/-- `__init__`: any exception — parse failure, the explicit `KeyError` for a
missing `Waveform` section, or anything raised inside `makeLeadVoltages` — is
caught by the broad `except`, which prints the error and sets both
`self.Waveforms` and `self.LeadVoltages` to `None`. -/
def initReader (outcome : ParseOutcome) (augmentLeads : Bool) : Reader :=
  match outcome with
  | .failure => { Waveforms := none, LeadVoltages := none }
  | .parsed doc =>
    match normalizeWaveform doc.Waveform with
    | none => { Waveforms := none, LeadVoltages := none }
    | some ws =>
      match makeLeadVoltages augmentLeads (some ws) with
      | .error _ => { Waveforms := none, LeadVoltages := none }
      | .ok m => { Waveforms := some ws, LeadVoltages := some m }

/-- `getLeadVoltages`: `self.LeadVoltages.get(LeadID, None) if
self.LeadVoltages else None`. (An empty dict is falsy and yields `None`,
exactly what `.get` on it would.) -/
def getLeadVoltages (r : Reader) (LeadID : String) : Option (List ℚ) :=
  match r.LeadVoltages with
  | none => none
  | some m => dictGet m LeadID

/-- `getAllVoltages`: `self.LeadVoltages if self.LeadVoltages else {}`. -/
def getAllVoltages (r : Reader) : List (String × List ℚ) :=
  match r.LeadVoltages with
  | none => []
  | some m => m

/-- A method call as value plus post-call instance state: the body of
`getAllVoltages` reads `self.LeadVoltages` and assigns no attribute, so the
instance comes back unchanged. -/
def getAllVoltagesCall (r : Reader) : List (String × List ℚ) × Reader :=
  (getAllVoltages r, r)

/-- `getLeadVoltages` likewise assigns no attribute. -/
def getLeadVoltagesCall (r : Reader) (LeadID : String) : Option (List ℚ) × Reader :=
  (getLeadVoltages r LeadID, r)

/-- A lead entry carrying the encoding of the given samples. -/
def mkLead (id : String) (vs : List Int) : LeadData :=
  { LeadID := id, WaveFormData := encodeLead vs }

/-- A waveform node holding a (multi-entry) list of leads. -/
def mkWaveform (ls : List LeadData) : Waveform :=
  { LeadData := some (.list ls) }

/-- The spec's duplicate-lead scenario: two waveform nodes, each carrying one
entry for the same lead ID. -/
def twoNodeDoc (id s1 s2 : String) : ECGDocument :=
  { Waveform := .list [{ LeadData := some (.list [{ LeadID := id, WaveFormData := s1 }]) },
                       { LeadData := some (.list [{ LeadID := id, WaveFormData := s2 }]) }] }

/-! ## Concrete documents used as test inputs -/

/-- A document with one well-formed lead "I" and one lead whose decoded
payload has odd byte length (`b64encode [0]` decodes to the single byte 0,
so `array.array('h', ·)` raises). -/
def docBadLead : ECGDocument :=
  { Waveform := .list [mkWaveform [mkLead "I" [100],
      { LeadID := "X", WaveFormData := b64encode [0] }]] }

/-- Eight lead entries but only seven distinct IDs: "I" appears twice. -/
def docDupLead : ECGDocument :=
  { Waveform := .list [mkWaveform [mkLead "I" [100], mkLead "II" [200],
      mkLead "V1" [0], mkLead "V2" [0], mkLead "V3" [0], mkLead "V4" [0],
      mkLead "V5" [0], mkLead "I" [300]]] }

/-- A full 12-lead recording, one entry per lead. -/
def ws12 : List Waveform := [mkWaveform [mkLead "I" [10], mkLead "II" [20],
  mkLead "III" [30], mkLead "aVR" [40], mkLead "aVL" [50], mkLead "aVF" [60],
  mkLead "V1" [1], mkLead "V2" [2], mkLead "V3" [3], mkLead "V4" [4],
  mkLead "V5" [5], mkLead "V6" [6]]]

/-- The decoded mapping of `ws12`. -/
def m12 : List (String × List ℚ) := [("I", [10]), ("II", [20]), ("III", [30]),
  ("aVR", [40]), ("aVL", [50]), ("aVF", [60]), ("V1", [1]), ("V2", [2]),
  ("V3", [3]), ("V4", [4]), ("V5", [5]), ("V6", [6])]

/-- The spec's canonical 8-lead montage with I = [1000, 2000] and
II = [500, 1500]. -/
def ws8 : List Waveform := [mkWaveform [mkLead "I" [1000, 2000],
  mkLead "II" [500, 1500], mkLead "V1" [0, 0], mkLead "V2" [0, 0],
  mkLead "V3" [0, 0], mkLead "V4" [0, 0], mkLead "V5" [0, 0], mkLead "V6" [0, 0]]]

/-- The decoded mapping of `ws8` before augmentation. -/
def m8 : List (String × List ℚ) := [("I", [1000, 2000]), ("II", [500, 1500]),
  ("V1", [0, 0]), ("V2", [0, 0]), ("V3", [0, 0]), ("V4", [0, 0]),
  ("V5", [0, 0]), ("V6", [0, 0])]

/-- Eight lead entries, none of them "I". -/
def ws8noI : List Waveform := [mkWaveform [mkLead "II" [1], mkLead "III" [2],
  mkLead "V1" [3], mkLead "V2" [4], mkLead "V3" [5], mkLead "V4" [6],
  mkLead "V5" [7], mkLead "V6" [8]]]

/-- The decoded mapping of `ws8noI`. -/
def m8noI : List (String × List ℚ) := [("II", [1]), ("III", [2]), ("V1", [3]),
  ("V2", [4]), ("V3", [5]), ("V4", [6]), ("V5", [7]), ("V6", [8])]

/-- One good node plus one node whose `LeadData` parsed as a single dict
(a single `<LeadData>` child in the XML). -/
def wsSingleEntry : List Waveform := [mkWaveform [mkLead "I" [5]],
  { LeadData := some (.single { LeadID := "II", WaveFormData := encodeLead [9] }) }]

/-! ## Round-trip lemmas for the decode pipeline -/

theorem exceptMap_ok {ε α β : Type} (f : α → β) (a : α) :
    Except.map f (Except.ok a : Except ε α) = Except.ok (f a) := rfl

theorem charSextet_sextetChar : ∀ n : Nat, n < 64 → charSextet (sextetChar n) = some n := by
  decide

theorem sextetChar_ne_pad : ∀ n : Nat, n < 64 → sextetChar n ≠ '=' := by
  decide

theorem b64decodeChars_chunk (s1 s2 s3 s4 : Nat) (t : List Nat) (rest : List Char)
    (h1 : s1 < 64) (h2 : s2 < 64) (h3 : s3 < 64) (h4 : s4 < 64)
    (hr : b64decodeChars rest = .ok t) :
    b64decodeChars (sextetChar s1 :: sextetChar s2 :: sextetChar s3 :: sextetChar s4 :: rest)
      = .ok ((s1 * 4 + s2 / 16) :: (s2 % 16 * 16 + s3 / 4) :: (s3 % 4 * 64 + s4) :: t) := by
  simp only [b64decodeChars, charSextet_sextetChar s1 h1, charSextet_sextetChar s2 h2,
    charSextet_sextetChar s3 h3, charSextet_sextetChar s4 h4,
    sextetChar_ne_pad s3 h3, sextetChar_ne_pad s4 h4, hr, exceptMap_ok,
    if_false, ite_false]

/-- Decoding inverts encoding on byte lists. -/
theorem b64_roundtrip : ∀ bs : List Nat, (∀ b ∈ bs, b < 256) →
    b64decodeChars (b64encodeBytes bs) = .ok bs
  | [], _ => rfl
  | [a], h => by
    have ha : a < 256 := h a (by simp)
    simp only [b64encodeBytes, b64decodeChars,
      charSextet_sextetChar (a / 4) (by omega),
      charSextet_sextetChar (a % 4 * 16) (by omega)]
    simp only [if_pos rfl, and_self, ite_true, Except.ok.injEq, List.cons.injEq, and_true]
    omega
  | [a, b], h => by
    have ha : a < 256 := h a (by simp)
    have hb : b < 256 := h b (by simp)
    simp only [b64encodeBytes, b64decodeChars,
      charSextet_sextetChar (a / 4) (by omega),
      charSextet_sextetChar (a % 4 * 16 + b / 16) (by omega),
      charSextet_sextetChar (b % 16 * 4) (by omega),
      sextetChar_ne_pad (a % 4 * 16 + b / 16) (by omega),
      sextetChar_ne_pad (b % 16 * 4) (by omega)]
    simp only [if_pos rfl, ite_true, ite_false, Except.ok.injEq, List.cons.injEq, and_true]
    constructor
    · omega
    · omega
  | a :: b :: c :: rest, h => by
    have ha : a < 256 := h a (by simp)
    have hb : b < 256 := h b (by simp)
    have hc : c < 256 := h c (by simp)
    have ih : b64decodeChars (b64encodeBytes rest) = .ok rest :=
      b64_roundtrip rest (fun x hx => h x (by simp [hx]))
    rw [b64encodeBytes,
      b64decodeChars_chunk _ _ _ _ _ _ (by omega) (by omega) (by omega) (by omega) ih]
    simp only [Except.ok.injEq, List.cons.injEq, and_true]
    refine ⟨by omega, by omega, by omega⟩

theorem encodeInt16_lt (v : Int) : ∀ b ∈ encodeInt16 v, b < 256 := by
  intro b hb
  have h1 : (0 : Int) ≤ v % 65536 := Int.emod_nonneg v (by omega)
  have h2 : v % 65536 < 65536 := Int.emod_lt_of_pos v (by omega)
  have h3 : (v % 65536).toNat < 65536 := by omega
  simp only [encodeInt16, List.mem_cons, List.not_mem_nil, or_false] at hb
  rcases hb with h | h <;> omega

theorem int16Bytes_lt : ∀ vs : List Int, ∀ b ∈ int16Bytes vs, b < 256
  | [], _, hb => by simp [int16Bytes] at hb
  | v :: vs, b, hb => by
    rw [int16Bytes, List.mem_append] at hb
    rcases hb with h | h
    · exact encodeInt16_lt v b h
    · exact int16Bytes_lt vs b h

/-- `array('h', ·)` inverts int16-LE encoding for in-range samples. -/
theorem bytesToInt16_roundtrip : ∀ vs : List Int,
    (∀ v ∈ vs, -32768 ≤ v ∧ v < 32768) →
    bytesToInt16 (int16Bytes vs) = .ok vs
  | [], _ => rfl
  | v :: vs, h => by
    have hv : -32768 ≤ v ∧ v < 32768 := h v (by simp)
    have ih : bytesToInt16 (int16Bytes vs) = .ok vs :=
      bytesToInt16_roundtrip vs (fun x hx => h x (by simp [hx]))
    have h1 : (0 : Int) ≤ v % 65536 := Int.emod_nonneg v (by omega)
    have h2 : v % 65536 < 65536 := Int.emod_lt_of_pos v (by omega)
    show bytesToInt16
        ((v % 65536).toNat % 256 :: (v % 65536).toNat / 256 :: int16Bytes vs) = .ok (v :: vs)
    rw [bytesToInt16, ih, exceptMap_ok]
    simp only [Except.ok.injEq, List.cons.injEq, and_true]
    have hn : (v % 65536).toNat % 256 + 256 * ((v % 65536).toNat / 256) = (v % 65536).toNat := by
      omega
    rw [hn, toSigned16]
    split <;> omega

/-! ## Dictionary lemmas -/

theorem dictGet_dictInsert_self (m : List (String × List ℚ)) (k : String) (v : List ℚ) :
    dictGet (dictInsert m k v) k = some v := by
  induction m with
  | nil => simp [dictInsert, dictGet]
  | cons p rest ih =>
    obtain ⟨k', v'⟩ := p
    by_cases h : k' = k
    · simp [dictInsert, dictGet, h]
    · simp [dictInsert, dictGet, h, ih]

theorem dictGet_dictInsert_ne (m : List (String × List ℚ)) (k k' : String) (v : List ℚ)
    (h : k' ≠ k) : dictGet (dictInsert m k v) k' = dictGet m k' := by
  have hne : ¬k = k' := fun hh => h hh.symm
  induction m with
  | nil =>
    simp [dictInsert, dictGet, hne]
  | cons p rest ih =>
    obtain ⟨k'', v''⟩ := p
    by_cases h1 : k'' = k
    · subst h1
      simp [dictInsert, dictGet, hne]
    · have hins : dictInsert ((k'', v'') :: rest) k v = (k'', v'') :: dictInsert rest k v := by
        simp [dictInsert, h1]
      rw [hins]
      by_cases h2 : k'' = k'
      · subst h2
        simp [dictGet]
      · simp [dictGet, h2, ih]

theorem mem_dictKeys_dictInsert (m : List (String × List ℚ)) (k x : String) (v : List ℚ) :
    x ∈ dictKeys (dictInsert m k v) ↔ x ∈ dictKeys m ∨ x = k := by
  induction m with
  | nil => simp [dictInsert, dictKeys]
  | cons p rest ih =>
    obtain ⟨k', v'⟩ := p
    by_cases h : k' = k
    · subst h
      simp [dictInsert, dictKeys]
      tauto
    · simp only [dictInsert, if_neg h, dictKeys, List.map_cons, List.mem_cons] at ih ⊢
      tauto

theorem dictKeys_dictInsert_nodup (m : List (String × List ℚ)) (k : String) (v : List ℚ)
    (h : (dictKeys m).Nodup) : (dictKeys (dictInsert m k v)).Nodup := by
  induction m with
  | nil => simp [dictInsert, dictKeys]
  | cons p rest ih =>
    obtain ⟨k', v'⟩ := p
    simp only [dictKeys, List.map_cons, List.nodup_cons] at h
    by_cases hk : k' = k
    · subst hk
      simpa [dictInsert, dictKeys] using h
    · simp only [dictInsert, if_neg hk, dictKeys, List.map_cons, List.nodup_cons]
      refine ⟨?_, ih h.2⟩
      rw [show (dictInsert rest k v).map Prod.fst = dictKeys (dictInsert rest k v) from rfl,
        mem_dictKeys_dictInsert]
      push_neg
      exact ⟨h.1, hk⟩

/-! ## Pipeline lemmas -/

theorem vecZip_ok (f : ℚ → ℚ → ℚ) : ∀ xs ys : List ℚ, xs.length = ys.length →
    vecZip f xs ys = .ok (List.zipWith f xs ys)
  | [], [], _ => rfl
  | x :: xs, y :: ys, h => by
    have ih := vecZip_ok f xs ys (by simpa using h)
    simp [vecZip, ih]
  | [], _ :: _, h => by simp at h
  | _ :: _, [], h => by simp at h

theorem processLeads_nodup : ∀ (ls : List LeadData) (n : Nat)
    (leads : List (String × List ℚ)) (n' : Nat) (leads' : List (String × List ℚ)),
    (dictKeys leads).Nodup → processLeads (n, leads) ls = .ok (n', leads') →
    (dictKeys leads').Nodup
  | [], n, leads, n', leads', h, heq => by
    simp only [processLeads, Except.ok.injEq, Prod.mk.injEq] at heq
    obtain ⟨rfl, rfl⟩ := heq
    exact h
  | l :: rest, n, leads, n', leads', h, heq => by
    cases hd : decodeLead l.WaveFormData with
    | error e => simp [processLeads, processLead, hd] at heq
    | ok vals =>
      simp only [processLeads, processLead, hd] at heq
      exact processLeads_nodup rest (n + 1) (dictInsert leads l.LeadID vals) n' leads'
        (dictKeys_dictInsert_nodup leads l.LeadID vals h) heq

theorem processWaveform_nodup (w : Waveform) (n : Nat) (leads : List (String × List ℚ))
    (n' : Nat) (leads' : List (String × List ℚ)) (h : (dictKeys leads).Nodup)
    (heq : processWaveform (n, leads) w = .ok (n', leads')) : (dictKeys leads').Nodup := by
  cases hw : w.LeadData with
  | none =>
    simp only [processWaveform, hw, Except.ok.injEq, Prod.mk.injEq] at heq
    obtain ⟨rfl, rfl⟩ := heq
    exact h
  | some f =>
    cases f with
    | single d => simp [processWaveform, hw] at heq
    | list ls =>
      simp only [processWaveform, hw] at heq
      exact processLeads_nodup ls n leads n' leads' h heq

theorem processWaveforms_nodup : ∀ (ws : List Waveform) (n : Nat)
    (leads : List (String × List ℚ)) (n' : Nat) (leads' : List (String × List ℚ)),
    (dictKeys leads).Nodup → processWaveforms (n, leads) ws = .ok (n', leads') →
    (dictKeys leads').Nodup
  | [], n, leads, n', leads', h, heq => by
    simp only [processWaveforms, Except.ok.injEq, Prod.mk.injEq] at heq
    obtain ⟨rfl, rfl⟩ := heq
    exact h
  | w :: rest, n, leads, n', leads', h, heq => by
    cases hw : processWaveform (n, leads) w with
    | error e => simp [processWaveforms, hw] at heq
    | ok st' =>
      obtain ⟨n2, leads2⟩ := st'
      simp only [processWaveforms, hw] at heq
      exact processWaveforms_nodup rest n2 leads2 n' leads'
        (processWaveform_nodup w n leads n2 leads2 h hw) heq

theorem augmentMap_nodup (m m' : List (String × List ℚ)) (h : (dictKeys m).Nodup)
    (heq : augmentMap m = .ok m') : (dictKeys m').Nodup := by
  unfold augmentMap at heq
  iterate 6 (all_goals (try split at heq))
  any_goals exact (Except.noConfusion heq)
  cases heq
  exact dictKeys_dictInsert_nodup _ _ _ (dictKeys_dictInsert_nodup _ _ _
    (dictKeys_dictInsert_nodup _ _ _ (dictKeys_dictInsert_nodup _ _ _ h)))

theorem makeLeadVoltages_nodup (flag : Bool) (ows : Option (List Waveform))
    (m : List (String × List ℚ)) (heq : makeLeadVoltages flag ows = .ok m) :
    (dictKeys m).Nodup := by
  cases ows with
  | none =>
    simp only [makeLeadVoltages, Except.ok.injEq] at heq
    subst heq
    simp [dictKeys]
  | some ws =>
    cases hempty : ws.isEmpty with
    | true =>
      simp only [makeLeadVoltages, hempty, if_true, Except.ok.injEq] at heq
      subst heq
      simp [dictKeys]
    | false =>
      simp only [makeLeadVoltages, hempty, Bool.false_eq_true, if_false] at heq
      cases hp : processWaveforms (0, []) ws with
      | error e => simp [hp] at heq
      | ok st =>
        obtain ⟨n, leads⟩ := st
        simp only [hp] at heq
        have hn : (dictKeys leads).Nodup :=
          processWaveforms_nodup ws 0 [] n leads (by simp [dictKeys]) hp
        by_cases hcond : n = 8 ∧ flag = true
        · rw [if_pos hcond] at heq
          exact augmentMap_nodup leads m hn heq
        · rw [if_neg hcond] at heq
          simp only [Except.ok.injEq] at heq
          subst heq
          exact hn

/-! ## Error propagation -/

theorem processLeads_error_of_mem : ∀ (ls : List LeadData) (l : LeadData) (e : String),
    l ∈ ls → decodeLead l.WaveFormData = .error e →
    ∀ n leads, ∃ e', processLeads (n, leads) ls = .error e'
  | [], l, e, hmem, _, _, _ => absurd hmem (List.not_mem_nil l)
  | l' :: rest, l, e, hmem, hdec, n, leads => by
    cases hd : decodeLead l'.WaveFormData with
    | error e2 => exact ⟨e2, by simp [processLeads, processLead, hd]⟩
    | ok vals =>
      rcases List.mem_cons.mp hmem with rfl | hmem2
      · rw [hd] at hdec
        exact absurd hdec (by simp)
      · obtain ⟨e', he'⟩ :=
          processLeads_error_of_mem rest l e hmem2 hdec (n + 1) (dictInsert leads l'.LeadID vals)
        exact ⟨e', by simp [processLeads, processLead, hd, he']⟩

theorem processWaveforms_error_of_mem : ∀ (ws : List Waveform) (w : Waveform),
    w ∈ ws → (∀ st, ∃ e', processWaveform st w = .error e') →
    ∀ st, ∃ e', processWaveforms st ws = .error e'
  | [], w, hmem, _, _ => absurd hmem (List.not_mem_nil w)
  | w' :: rest, w, hmem, hfail, st => by
    cases hw : processWaveform st w' with
    | error e2 => exact ⟨e2, by simp [processWaveforms, hw]⟩
    | ok st' =>
      rcases List.mem_cons.mp hmem with rfl | hmem2
      · obtain ⟨e', he'⟩ := hfail st
        rw [hw] at he'
        exact absurd he' (by simp)
      · obtain ⟨e', he'⟩ := processWaveforms_error_of_mem rest w hmem2 hfail st'
        exact ⟨e', by simp [processWaveforms, hw, he']⟩

theorem makeLeadVoltages_error_of_waveform (flag : Bool) (ws : List Waveform) (w : Waveform)
    (hmem : w ∈ ws) (hfail : ∀ st, ∃ e', processWaveform st w = .error e') :
    ∃ e, makeLeadVoltages flag (some ws) = .error e := by
  have hne : ws ≠ [] := by rintro rfl; exact List.not_mem_nil w hmem
  have hempty : ws.isEmpty = false := by
    cases ws with
    | nil => exact absurd rfl hne
    | cons a t => rfl
  obtain ⟨e', he'⟩ := processWaveforms_error_of_mem ws w hmem hfail (0, [])
  exact ⟨e', by simp [makeLeadVoltages, hempty, he']⟩

theorem initReader_degraded (ws : List Waveform) (flag : Bool) (e : String)
    (h : makeLeadVoltages flag (some ws) = .error e) :
    initReader (.parsed { Waveform := .list ws }) flag =
      { Waveforms := none, LeadVoltages := none } := by
  simp [initReader, normalizeWaveform, h]

/-! ## Behaviour of the decode pipeline on well-formed and failing input -/

/-- The full per-lead decode inverts `encodeLead` for in-range samples. -/
theorem decodeLead_encodeLead (vs : List Int) (h : ∀ v ∈ vs, -32768 ≤ v ∧ v < 32768) :
    decodeLead (encodeLead vs) = .ok (vs.map (fun v => (v : ℚ))) := by
  have h1 : b64decode (encodeLead vs) = .ok (int16Bytes vs) :=
    b64_roundtrip (int16Bytes vs) (int16Bytes_lt vs)
  simp only [decodeLead, h1, bytesToInt16_roundtrip vs h]

/-- A waveform node with no `LeadData` key contributes nothing: the outer
loop's state passes through it unchanged wherever it sits. -/
theorem processWaveforms_skip (w : Waveform) (hw : w.LeadData = none) :
    ∀ (ws₁ : List Waveform) (st : Nat × List (String × List ℚ)) (ws₂ : List Waveform),
    processWaveforms st (ws₁ ++ w :: ws₂) = processWaveforms st (ws₁ ++ ws₂)
  | [], st, ws₂ => by
    have hpass : processWaveform st w = .ok st := by simp [processWaveform, hw]
    simp only [List.nil_append, processWaveforms, hpass]
  | w' :: rest, st, ws₂ => by
    simp only [List.cons_append, processWaveforms]
    cases hpw : processWaveform st w' with
    | error e => simp only [hpw]
    | ok st' =>
      simp only [hpw]
      exact processWaveforms_skip w hw rest st' ws₂

/-- When both "I" and "II" are present with equal lengths, the augmented
block succeeds and appends exactly the four derived leads. -/
theorem augmentMap_ok_of (m : List (String × List ℚ)) (vI vII : List ℚ)
    (hII : dictGet m "II" = some vII) (hI : dictGet m "I" = some vI)
    (hlen : vI.length = vII.length) :
    augmentMap m = .ok (dictInsert (dictInsert (dictInsert (dictInsert m
      "III" (List.zipWith (fun x y => x - y) vII vI))
      "aVR" ((List.zipWith (fun x y => x + y) vI vII).map (fun x => x * (-(1 : ℚ) / 2))))
      "aVL" (List.zipWith (fun x y => x - 1 / 2 * y) vI vII))
      "aVF" (List.zipWith (fun x y => x - 1 / 2 * y) vII vI)) := by
  have e2 : getItem m "II" = .ok vII := by rw [getItem, hII]
  have e1 : getItem m "I" = .ok vI := by rw [getItem, hI]
  have z1 := vecZip_ok (fun x y => x - y) vII vI hlen.symm
  have z2 := vecZip_ok (fun x y => x + y) vI vII hlen
  have z3 := vecZip_ok (fun x y => x - 1 / 2 * y) vI vII hlen
  have z4 := vecZip_ok (fun x y => x - 1 / 2 * y) vII vI hlen.symm
  simp only [augmentMap, e2, e1, z1, z2, z3, z4]

/-- The augmented block raises `KeyError` when "I" or "II" is absent. -/
theorem augmentMap_error_of_missing (m : List (String × List ℚ))
    (h : dictGet m "I" = none ∨ dictGet m "II" = none) :
    ∃ e, augmentMap m = .error e := by
  rcases h with hI | hII
  · cases hII2 : dictGet m "II" with
    | none => exact ⟨"KeyError: " ++ "II", by simp [augmentMap, getItem, hII2]⟩
    | some vII => exact ⟨"KeyError: " ++ "I", by simp [augmentMap, getItem, hII2, hI]⟩
  · exact ⟨"KeyError: " ++ "II", by simp [augmentMap, getItem, hII]⟩

/-- `makeLeadVoltages` in terms of the loop result: the augmented block runs
exactly when the lead-entry count is 8 and the flag is set. -/
theorem makeLeadVoltages_processed (flag : Bool) (ws : List Waveform) (n : Nat)
    (leads : List (String × List ℚ)) (h : processWaveforms (0, []) ws = .ok (n, leads)) :
    makeLeadVoltages flag (some ws) =
      if n = 8 ∧ flag = true then augmentMap leads else .ok leads := by
  cases ws with
  | nil =>
    simp only [processWaveforms, Except.ok.injEq, Prod.mk.injEq] at h
    obtain ⟨h1, h2⟩ := h
    subst h1
    subst h2
    norm_num [makeLeadVoltages]
  | cons a t =>
    have hne : (a :: t).isEmpty = false := rfl
    simp only [makeLeadVoltages, hne, Bool.false_eq_true, if_false, h]

/-- A lead entry whose payload fails to decode makes its whole waveform node
raise, whatever the loop state. -/
theorem processWaveform_error_of_lead (w : Waveform) (ls : List LeadData) (l : LeadData)
    (e : String) (hld : w.LeadData = some (.list ls)) (hl : l ∈ ls)
    (hdec : decodeLead l.WaveFormData = .error e) :
    ∀ st, ∃ e', processWaveform st w = .error e' := by
  rintro ⟨n, leads⟩
  obtain ⟨e', he'⟩ := processLeads_error_of_mem ls l e hl hdec n leads
  exact ⟨e', by simp [processWaveform, hld, he']⟩

/-- A waveform node whose `LeadData` parsed as a single dict raises
`TypeError`, whatever the loop state. -/
theorem processWaveform_error_of_single (w : Waveform) (d : LeadData)
    (hld : w.LeadData = some (.single d)) :
    ∀ st, ∃ e', processWaveform st w = .error e' := by
  intro st
  exact ⟨"TypeError: string indices must be integers", by simp [processWaveform, hld]⟩

/-- Querying an instance whose construction succeeded reads the stored dict. -/
theorem getLead_after_ok (doc : ECGDocument) (ws : List Waveform) (flag : Bool)
    (m : List (String × List ℚ)) (k : String) (hdoc : doc.Waveform = .list ws)
    (hml : makeLeadVoltages flag (some ws) = .ok m) :
    getLeadVoltages (initReader (.parsed doc) flag) k = dictGet m k := by
  simp [initReader, hdoc, normalizeWaveform, hml, getLeadVoltages]

/-- `getAllVoltages` on an instance whose construction succeeded. -/
theorem getAll_after_ok (doc : ECGDocument) (ws : List Waveform) (flag : Bool)
    (m : List (String × List ℚ)) (hdoc : doc.Waveform = .list ws)
    (hml : makeLeadVoltages flag (some ws) = .ok m) :
    getAllVoltages (initReader (.parsed doc) flag) = m := by
  simp [initReader, hdoc, normalizeWaveform, hml, getAllVoltages]

/-! ## The claims -/

/-- C1 (counterexample): in `docBadLead` lead "I" is well-formed (its payload
decodes to `[100]`), yet because the sibling lead "X" fails to decode, "I" is
not retrievable and the mapping is empty — the claim that only the malformed
lead is skipped while all other leads stay retrievable is false. -/
theorem claim1_counterexample :
    decodeLead (mkLead "I" [100]).WaveFormData = .ok [(100 : ℚ)] ∧
    getLeadVoltages (initReader (.parsed docBadLead) false) "I" = none ∧
    getAllVoltages (initReader (.parsed docBadLead) false) = [] :=
  ⟨by decide, by decide, by decide⟩

/-- C1 (amended): a lead whose `WaveFormData` fails to decode is not skipped
individually; the exception propagates to the constructor's broad `except`,
which degrades the whole instance: `LeadVoltages` becomes `None`,
`getAllVoltages` returns the empty mapping, and every `getLeadVoltages`
query — including for the document's other, well-formed leads — returns
"not found". -/
theorem claim1_theorem (ws : List Waveform) (w : Waveform) (ls : List LeadData)
    (l : LeadData) (e : String) (flag : Bool) (hmem : w ∈ ws)
    (hld : w.LeadData = some (.list ls)) (hl : l ∈ ls)
    (hdec : decodeLead l.WaveFormData = .error e) :
    (initReader (.parsed { Waveform := .list ws }) flag).LeadVoltages = none ∧
    getAllVoltages (initReader (.parsed { Waveform := .list ws }) flag) = [] ∧
    ∀ id, getLeadVoltages (initReader (.parsed { Waveform := .list ws }) flag) id = none := by
  obtain ⟨e2, he2⟩ := makeLeadVoltages_error_of_waveform flag ws w hmem
    (processWaveform_error_of_lead w ls l e hld hl hdec)
  rw [initReader_degraded ws flag e2 he2]
  exact ⟨rfl, rfl, fun _ => rfl⟩

/-- C1 (witness): the amended claim at `docBadLead`. -/
theorem claim1_witness :
    getAllVoltages (initReader (.parsed docBadLead) false) = [] :=
  (claim1_theorem
    [mkWaveform [mkLead "I" [100], { LeadID := "X", WaveFormData := b64encode [0] }]]
    (mkWaveform [mkLead "I" [100], { LeadID := "X", WaveFormData := b64encode [0] }])
    [mkLead "I" [100], { LeadID := "X", WaveFormData := b64encode [0] }]
    { LeadID := "X", WaveFormData := b64encode [0] }
    "ValueError: bytes length not a multiple of 2" false
    (by decide) rfl (by decide) (by decide)).2.1

/-- C6: when construction fails before a document is parsed (missing or
unreadable file, malformed XML), no exception escapes: the constructor still
returns an instance, `getAllVoltages` returns the empty mapping (never a
null), and `getLeadVoltages` returns "not found" for every ID. -/
theorem claim6_theorem (flag : Bool) :
    (initReader .failure flag).LeadVoltages = none ∧
    getAllVoltages (initReader .failure flag) = [] ∧
    ∀ id, getLeadVoltages (initReader .failure flag) id = none :=
  ⟨rfl, rfl, fun _ => rfl⟩

/-- C8: a waveform node lacking a `LeadData` field is skipped (with a printed
warning) and processing continues: the extraction result equals that of the
same document without the node, so leads of the remaining nodes are decoded
and present exactly as they would otherwise be. -/
theorem claim8_theorem (flag : Bool) (w : Waveform) (ws₁ ws₂ : List Waveform)
    (hskip : w.LeadData = none) :
    makeLeadVoltages flag (some (ws₁ ++ w :: ws₂)) =
      makeLeadVoltages flag (some (ws₁ ++ ws₂)) := by
  have hskip2 := processWaveforms_skip w hskip ws₁ (0, []) ws₂
  cases hc : (ws₁ ++ ws₂).isEmpty with
  | true =>
    have h1 : ws₁ = [] ∧ ws₂ = [] := by
      cases ws₁ with
      | nil =>
        cases ws₂ with
        | nil => exact ⟨rfl, rfl⟩
        | cons a t => simp at hc
      | cons a t => simp at hc
    obtain ⟨rfl, rfl⟩ := h1
    have hp : processWaveforms (0, []) ([] ++ w :: []) = .ok (0, []) := by
      simp [processWaveforms, processWaveform, hskip]
    rw [makeLeadVoltages_processed flag _ 0 [] hp]
    norm_num [makeLeadVoltages]
  | false =>
    have hne : (ws₁ ++ w :: ws₂).isEmpty = false := by
      cases ws₁ <;> rfl
    simp only [makeLeadVoltages, hne, hc, Bool.false_eq_true, if_false, hskip2]

/-- C8 (witness): a bare node ahead of a well-formed node changes nothing. -/
theorem claim8_witness :
    makeLeadVoltages false (some ([] ++ { LeadData := none } :: [mkWaveform [mkLead "I" [7]]])) =
      makeLeadVoltages false (some ([] ++ [mkWaveform [mkLead "I" [7]]])) :=
  claim8_theorem false { LeadData := none } [] [mkWaveform [mkLead "I" [7]]] rfl

/-- C9: the query methods assign no attribute: each call returns the instance
state unchanged, and two successive `getAllVoltages` calls return equal
mappings — reads do not mutate the stored lead-voltage state. -/
theorem claim9_theorem (r : Reader) (id : String) :
    (getAllVoltagesCall r).2 = r ∧
    (getLeadVoltagesCall r id).2 = r ∧
    (getAllVoltagesCall ((getAllVoltagesCall r).2)).1 = (getAllVoltagesCall r).1 :=
  ⟨rfl, rfl, rfl⟩

/-- C10: the code normalises only the top-level `Waveform` field, never the
`LeadData` collection; a node whose `LeadData` parsed as a single mapping
makes the loop iterate over its key strings and raise `TypeError`, so the
constructor degrades the entire instance: empty mapping and "not found" for
every ID, even for leads of other, well-formed waveform nodes. -/
theorem claim10_theorem (ws : List Waveform) (w : Waveform) (d : LeadData) (flag : Bool)
    (hmem : w ∈ ws) (hld : w.LeadData = some (.single d)) :
    (initReader (.parsed { Waveform := .list ws }) flag).LeadVoltages = none ∧
    getAllVoltages (initReader (.parsed { Waveform := .list ws }) flag) = [] ∧
    ∀ id, getLeadVoltages (initReader (.parsed { Waveform := .list ws }) flag) id = none := by
  obtain ⟨e2, he2⟩ := makeLeadVoltages_error_of_waveform flag ws w hmem
    (processWaveform_error_of_single w d hld)
  rw [initReader_degraded ws flag e2 he2]
  exact ⟨rfl, rfl, fun _ => rfl⟩

/-- C10 (witness): in `wsSingleEntry` the first node is well-formed, yet its
lead "I" is lost together with everything else. -/
theorem claim10_witness :
    getAllVoltages (initReader (.parsed { Waveform := .list wsSingleEntry }) false) = [] ∧
    getLeadVoltages (initReader (.parsed { Waveform := .list wsSingleEntry }) false) "I" = none :=
  ⟨(claim10_theorem wsSingleEntry
      { LeadData := some (.single { LeadID := "II", WaveFormData := encodeLead [9] }) }
      { LeadID := "II", WaveFormData := encodeLead [9] } false (by decide) rfl).2.1,
   (claim10_theorem wsSingleEntry
      { LeadData := some (.single { LeadID := "II", WaveFormData := encodeLead [9] }) }
      { LeadID := "II", WaveFormData := encodeLead [9] } false (by decide) rfl).2.2 "I"⟩

/-- C2 (counterexample): in `docDupLead` eight lead entries are processed but
only seven distinct lead IDs are decoded (the un-augmented mapping has the
seven keys below, and no "aVR" entry); with the flag set the augmented leads
are nonetheless added — so "exactly 8 distinct leads decoded" is not what
gates augmentation. -/
theorem claim2_counterexample :
    dictKeys (getAllVoltages (initReader (.parsed docDupLead) false))
      = ["I", "II", "V1", "V2", "V3", "V4", "V5"] ∧
    getLeadVoltages (initReader (.parsed docDupLead) false) "aVR" = none ∧
    getLeadVoltages (initReader (.parsed docDupLead) true) "aVR" = some [-250] := by
  refine ⟨by decide, by decide, ?_⟩
  have hpl : processWaveforms (0, [])
      [mkWaveform [mkLead "I" [100], mkLead "II" [200], mkLead "V1" [0], mkLead "V2" [0],
        mkLead "V3" [0], mkLead "V4" [0], mkLead "V5" [0], mkLead "I" [300]]]
      = .ok (8, [("I", [300]), ("II", [200]), ("V1", [0]), ("V2", [0]), ("V3", [0]),
        ("V4", [0]), ("V5", [0])]) := by decide
  have haug := augmentMap_ok_of
    [("I", [300]), ("II", [200]), ("V1", [0]), ("V2", [0]), ("V3", [0]), ("V4", [0]), ("V5", [0])]
    [300] [200] (by decide) (by decide) rfl
  have hml : makeLeadVoltages true (some
      [mkWaveform [mkLead "I" [100], mkLead "II" [200], mkLead "V1" [0], mkLead "V2" [0],
        mkLead "V3" [0], mkLead "V4" [0], mkLead "V5" [0], mkLead "I" [300]]])
      = .ok (dictInsert (dictInsert (dictInsert (dictInsert
          [("I", [300]), ("II", [200]), ("V1", [0]), ("V2", [0]), ("V3", [0]), ("V4", [0]),
           ("V5", [0])]
          "III" (List.zipWith (fun x y => x - y) [200] [300]))
          "aVR" ((List.zipWith (fun x y => x + y) [300] [200]).map (fun x => x * (-(1 : ℚ) / 2))))
          "aVL" (List.zipWith (fun x y => x - 1 / 2 * y) [300] [200]))
          "aVF" (List.zipWith (fun x y => x - 1 / 2 * y) [200] [300])) := by
    rw [makeLeadVoltages_processed true _ 8 _ hpl, if_pos ⟨rfl, rfl⟩, haug]
  rw [getLead_after_ok docDupLead _ true _ "aVR" rfl hml,
    dictGet_dictInsert_ne _ "aVF" "aVR" _ (by decide),
    dictGet_dictInsert_ne _ "aVL" "aVR" _ (by decide), dictGet_dictInsert_self]
  simp only [List.zipWith, List.map]
  norm_num

/-- C2 (amended): augmentation is gated on the running count of lead entries
processed (duplicates counted), not on the number of distinct decoded leads:
the augmented block runs exactly when that count is 8 and the flag was set,
and otherwise — in particular with 12 leads present and the flag set — the
mapping is exactly the decoded one, with no entries added. -/
theorem claim2_theorem (flag : Bool) (ws : List Waveform) (n : Nat)
    (leads : List (String × List ℚ)) (h : processWaveforms (0, []) ws = .ok (n, leads)) :
    makeLeadVoltages flag (some ws) =
      if n = 8 ∧ flag = true then augmentMap leads else .ok leads :=
  makeLeadVoltages_processed flag ws n leads h

/-- C2 (witness): 12 lead entries with the flag set — output is exactly the
decoded mapping. -/
theorem claim2_witness : makeLeadVoltages true (some ws12) = .ok m12 := by
  have h := claim2_theorem true ws12 12 m12 (by decide)
  simpa using h

/-- C3: if augmentation fires (entry count 8, flag set) while "I" or "II" is
absent from the decoded mapping, the dict lookup raises `KeyError`: the
augmentation step fails in a surfaced way (the constructor catches and
reports the error) and no augmented leads are fabricated — every query on
the resulting instance answers "not found". -/
theorem claim3_theorem (ws : List Waveform) (leads : List (String × List ℚ))
    (h : processWaveforms (0, []) ws = .ok (8, leads))
    (hmiss : dictGet leads "I" = none ∨ dictGet leads "II" = none) :
    (∃ e, makeLeadVoltages true (some ws) = .error e) ∧
    (initReader (.parsed { Waveform := .list ws }) true).LeadVoltages = none ∧
    ∀ id, getLeadVoltages (initReader (.parsed { Waveform := .list ws }) true) id = none := by
  obtain ⟨e, he⟩ := augmentMap_error_of_missing leads hmiss
  have hml : makeLeadVoltages true (some ws) = .error e := by
    rw [makeLeadVoltages_processed true ws 8 leads h, if_pos ⟨rfl, rfl⟩, he]
  refine ⟨⟨e, hml⟩, ?_, ?_⟩
  · rw [initReader_degraded ws true e hml]
  · intro id
    rw [initReader_degraded ws true e hml]
    rfl

/-- C3 (witness): eight leads, none of them "I". -/
theorem claim3_witness :
    (∃ e, makeLeadVoltages true (some ws8noI) = .error e) ∧
    getLeadVoltages (initReader (.parsed { Waveform := .list ws8noI }) true) "aVR" = none :=
  ⟨(claim3_theorem ws8noI m8noI (by decide) (Or.inl (by decide))).1,
   (claim3_theorem ws8noI m8noI (by decide) (Or.inl (by decide))).2.2 "aVR"⟩

/-- C4: whenever augmentation fires, the derived leads are the elementwise
combinations of the decoded "I" and "II" sequences: III = II − I,
aVR = −0.5·(I + II), aVL = I − 0.5·II, aVF = II − 0.5·I. -/
theorem claim4_theorem (ws : List Waveform) (leads : List (String × List ℚ))
    (vI vII : List ℚ) (h : processWaveforms (0, []) ws = .ok (8, leads))
    (hI : dictGet leads "I" = some vI) (hII : dictGet leads "II" = some vII)
    (hlen : vI.length = vII.length) :
    getLeadVoltages (initReader (.parsed { Waveform := .list ws }) true) "III"
      = some (List.zipWith (fun x y => x - y) vII vI) ∧
    getLeadVoltages (initReader (.parsed { Waveform := .list ws }) true) "aVR"
      = some ((List.zipWith (fun x y => x + y) vI vII).map (fun x => x * (-(1 : ℚ) / 2))) ∧
    getLeadVoltages (initReader (.parsed { Waveform := .list ws }) true) "aVL"
      = some (List.zipWith (fun x y => x - 1 / 2 * y) vI vII) ∧
    getLeadVoltages (initReader (.parsed { Waveform := .list ws }) true) "aVF"
      = some (List.zipWith (fun x y => x - 1 / 2 * y) vII vI) := by
  have haug := augmentMap_ok_of leads vI vII hII hI hlen
  have hml : makeLeadVoltages true (some ws) = augmentMap leads := by
    rw [makeLeadVoltages_processed true ws 8 leads h, if_pos ⟨rfl, rfl⟩]
  rw [haug] at hml
  refine ⟨?_, ?_, ?_, ?_⟩ <;> rw [getLead_after_ok { Waveform := .list ws } ws true _ _ rfl hml]
  · rw [dictGet_dictInsert_ne _ "aVF" "III" _ (by decide),
      dictGet_dictInsert_ne _ "aVL" "III" _ (by decide),
      dictGet_dictInsert_ne _ "aVR" "III" _ (by decide), dictGet_dictInsert_self]
  · rw [dictGet_dictInsert_ne _ "aVF" "aVR" _ (by decide),
      dictGet_dictInsert_ne _ "aVL" "aVR" _ (by decide), dictGet_dictInsert_self]
  · rw [dictGet_dictInsert_ne _ "aVF" "aVL" _ (by decide), dictGet_dictInsert_self]
  · rw [dictGet_dictInsert_self]

/-- C4 (witness): the spec's concrete instance on `ws8`: I = [1000, 2000],
II = [500, 1500] give III = [-500, -500], aVR = [-750, -1750],
aVL = [750, 1250], aVF = [0, 500]. -/
theorem claim4_witness :
    getLeadVoltages (initReader (.parsed { Waveform := .list ws8 }) true) "III"
      = some [-500, -500] ∧
    getLeadVoltages (initReader (.parsed { Waveform := .list ws8 }) true) "aVR"
      = some [-750, -1750] ∧
    getLeadVoltages (initReader (.parsed { Waveform := .list ws8 }) true) "aVL"
      = some [750, 1250] ∧
    getLeadVoltages (initReader (.parsed { Waveform := .list ws8 }) true) "aVF"
      = some [0, 500] := by
  obtain ⟨h3, hR, hL, hF⟩ := claim4_theorem ws8 m8 [1000, 2000] [500, 1500]
    (by decide) (by decide) (by decide) rfl
  refine ⟨h3.trans ?_, hR.trans ?_, hL.trans ?_, hF.trans ?_⟩ <;>
    simp only [List.zipWith, List.map] <;> norm_num

/-- C5: decoding round-trips encoding — a lead whose `WaveFormData` is the
base64 encoding of any in-range signed-16-bit-little-endian sequence is
returned by `getLeadVoltages` as exactly that sequence. -/
theorem claim5_theorem (id : String) (flag : Bool) (vs : List Int)
    (h : ∀ v ∈ vs, -32768 ≤ v ∧ v < 32768) :
    getLeadVoltages
        (initReader (.parsed { Waveform := .list [mkWaveform [mkLead id vs]] }) flag) id
      = some (vs.map (fun v => (v : ℚ))) := by
  have hd := decodeLead_encodeLead vs h
  have hpl : processWaveforms (0, []) [mkWaveform [mkLead id vs]]
      = .ok (1, [(id, vs.map (fun v => (v : ℚ)))]) := by
    simp [processWaveforms, processWaveform, mkWaveform, processLeads, processLead,
      mkLead, hd, dictInsert]
  have hml : makeLeadVoltages flag (some [mkWaveform [mkLead id vs]])
      = .ok [(id, vs.map (fun v => (v : ℚ)))] := by
    rw [makeLeadVoltages_processed flag _ 1 _ hpl]
    norm_num
  rw [getLead_after_ok { Waveform := .list [mkWaveform [mkLead id vs]] } _ flag _ id rfl hml]
  simp [dictGet]

/-- C5 (witness): the spec's example `[100, -200, 300, -400]`. -/
theorem claim5_witness :
    getLeadVoltages
        (initReader
          (.parsed { Waveform := .list [mkWaveform [mkLead "V1" [100, -200, 300, -400]]] })
          false) "V1"
      = some [100, -200, 300, -400] :=
  ( claim5_theorem "V1" false [100, -200, 300, -400] (by decide)).trans (by norm_num)

/-- C7: with the same LeadID in two waveform nodes, the final mapping holds
exactly the decoded values of the last-processed occurrence (last-write-wins)
under the single key, and in general the output mapping's keys are
duplicate-free on every construction outcome. -/
theorem claim7_theorem (id s1 s2 : String) (v1 v2 : List ℚ) (flag : Bool)
    (h1 : decodeLead s1 = .ok v1) (h2 : decodeLead s2 = .ok v2) :
    getLeadVoltages (initReader (.parsed (twoNodeDoc id s1 s2)) flag) id = some v2 ∧
    dictKeys (getAllVoltages (initReader (.parsed (twoNodeDoc id s1 s2)) flag)) = [id] ∧
    ∀ (outcome : ParseOutcome) (flag2 : Bool),
      (dictKeys (getAllVoltages (initReader outcome flag2))).Nodup := by
  have hpl : processWaveforms (0, [])
      [{ LeadData := some (.list [{ LeadID := id, WaveFormData := s1 }]) },
       { LeadData := some (.list [{ LeadID := id, WaveFormData := s2 }]) }]
      = .ok (2, [(id, v2)]) := by
    simp [processWaveforms, processWaveform, processLeads, processLead, h1, h2, dictInsert]
  have hml : makeLeadVoltages flag (some
      [{ LeadData := some (.list [{ LeadID := id, WaveFormData := s1 }]) },
       { LeadData := some (.list [{ LeadID := id, WaveFormData := s2 }]) }])
      = .ok [(id, v2)] := by
    rw [makeLeadVoltages_processed flag _ 2 _ hpl]
    norm_num
  refine ⟨?_, ?_, ?_⟩
  · rw [getLead_after_ok (twoNodeDoc id s1 s2) _ flag _ id rfl hml]
    simp [dictGet]
  · rw [getAll_after_ok (twoNodeDoc id s1 s2) _ flag _ rfl hml]
    rfl
  · intro outcome flag2
    cases outcome with
    | failure => simp [initReader, getAllVoltages, dictKeys]
    | parsed doc =>
      cases hnw : normalizeWaveform doc.Waveform with
      | none => simp [initReader, hnw, getAllVoltages, dictKeys]
      | some ws2 =>
        cases hml2 : makeLeadVoltages flag2 (some ws2) with
        | error e => simp [initReader, hnw, hml2, getAllVoltages, dictKeys]
        | ok m2 =>
          have hnd := makeLeadVoltages_nodup flag2 (some ws2) m2 hml2
          simpa [initReader, hnw, hml2, getAllVoltages] using hnd

/-- C7 (witness): two nodes both holding lead "II"; the second one's decode
wins. -/
theorem claim7_witness :
    getLeadVoltages
        (initReader (.parsed (twoNodeDoc "II" (encodeLead [111]) (encodeLead [222]))) false) "II"
      = some [222] :=
  ( claim7_theorem "II" (encodeLead [111]) (encodeLead [222]) [111] [222] false
    (by decide) (by decide)).1

end ECGReader

